import Mathlib

/-!
Verification of the c-axon messaging library (src/src/axon.c, src/src/sock.c)
against its natural-language specification.

The development shallowly embeds the parts of the code the claims are about:
the AMP wire codec (a dependency of the repository whose C source is not under
src/; it is modelled from spec section 4.1), the subscription table and
dispatch logic of axon.c, the reply path of the REP role, the dialer registry
check, the round-robin pick and the sender back-off loop of sock.c, and the
request-timeout deadline computation of axon_vsend.
-/

set_option maxRecDepth 8000

namespace CAxon

/-! ## AMP wire codec, modelled from the spec (section 4.1).
The codec functions amp_create, amp_push, amp_encode and amp_decode live in
the c-amp dependency, whose C source is not part of this repository checkout;
the definitions below follow the frame layout given by the spec:
meta byte = (version <<< 4) ||| fieldCount with version 1 and fieldCount
capped at 15, then per field a header byte (isBigArg <<< 7) ||| typeTag, a
1-byte length when the payload is at most 255 bytes else a 4-byte big-endian
length, then the payload bytes. BIGINT payloads are 8 little-endian bytes of
the 64-bit signed value. -/

/-- Little-endian byte expansion of a natural number on a fixed byte count. -/
def natToLE : Nat → Nat → List Nat
  | 0, _ => []
  | k + 1, n => (n % 256) :: natToLE k (n / 256)

/-- Value of a little-endian byte list. -/
def leToNat : List Nat → Nat
  | [] => 0
  | b :: bs => b + 256 * leToNat bs

/-- Big-endian 4-byte expansion of a natural number. -/
def natToBE4 (n : Nat) : List Nat :=
  (natToLE 4 n).reverse

/-- Value of four big-endian bytes. -/
def beToNat4 (b0 b1 b2 b3 : Nat) : Nat :=
  ((b0 * 256 + b1) * 256 + b2) * 256 + b3

/-- AMP field: the four typed payloads of the wire format. -/
inductive amp_field : Type
  | blob (payload : List Nat)
  | str (payload : List Nat)
  | bigint (value : Int)
  | json (payload : List Nat)
deriving DecidableEq

/-- Wire type tag of a field. -/
def fieldTag : amp_field → Nat
  | .blob _ => 0
  | .str _ => 1
  | .bigint _ => 2
  | .json _ => 3

/-- Two-complement little-endian encoding of a 64-bit signed integer. -/
def int64ToLE (v : Int) : List Nat :=
  natToLE 8 (v % 18446744073709551616).toNat

/-- Signed 64-bit value of eight little-endian bytes. -/
def leToInt64 (bs : List Nat) : Int :=
  if leToNat bs < 9223372036854775808 then (leToNat bs : Int)
  else (leToNat bs : Int) - 18446744073709551616

/-- Payload bytes of a field as they appear on the wire. -/
def fieldPayload : amp_field → List Nat
  | .blob p => p
  | .str p => p
  | .bigint v => int64ToLE v
  | .json p => p

/-- Encoding of one field: header byte, length field, payload. -/
def encodeField (f : amp_field) : List Nat :=
  let p := fieldPayload f
  if p.length ≤ 255 then
    fieldTag f :: p.length :: p
  else
    (128 + fieldTag f) :: (natToBE4 p.length ++ p)

/-- Encoding of a whole message; fails when more than 15 fields are given. -/
def amp_encode (m : List amp_field) : Option (List Nat) :=
  if m.length ≤ 15 then
    some ((16 + m.length) :: m.flatMap encodeField)
  else
    none

/-- Reconstruction of a field from its tag and payload bytes. -/
def mkField (tag : Nat) (payload : List Nat) : Option amp_field :=
  match tag with
  | 0 => some (.blob payload)
  | 1 => some (.str payload)
  | 2 => if payload.length = 8 then some (.bigint (leToInt64 payload)) else none
  | 3 => some (.json payload)
  | _ => none

/-- Decoding of a payload of known length and tag from the front of a
buffer, failing on truncation or an unknown tag. -/
def decodeBody (tag len : Nat) (bs : List Nat) : Option (amp_field × List Nat) :=
  if len ≤ bs.length then
    match mkField tag (bs.take len) with
    | some f => some (f, bs.drop len)
    | none => none
  else none

/-- Decoding of one field from the front of a buffer; returns the field and
the remaining bytes. The high header bit selects a 1-byte or a 4-byte
big-endian length field. -/
def decodeField : List Nat → Option (amp_field × List Nat)
  | [] => none
  | h :: rest =>
    if 128 ≤ h then
      match rest with
      | b0 :: b1 :: b2 :: b3 :: rest2 => decodeBody (h % 128) (beToNat4 b0 b1 b2 b3) rest2
      | _ => none
    else
      match rest with
      | l :: rest2 => decodeBody (h % 128) l rest2
      | [] => none

/-- Decoding of a fixed number of consecutive fields. -/
def decodeFields : Nat → List Nat → Option (List amp_field × List Nat)
  | 0, bs => some ([], bs)
  | k + 1, bs =>
    match decodeField bs with
    | none => none
    | some (f, rest) =>
      match decodeFields k rest with
      | none => none
      | some (fs, rest2) => some (f :: fs, rest2)

/-- Decoding of one frame: returns the field list and the number of bytes
consumed, so that several coalesced frames can be decoded in a loop. -/
def amp_decode (bs : List Nat) : Option (List amp_field × Nat) :=
  match bs with
  | [] => none
  | meta :: rest =>
    match decodeFields (meta % 16) rest with
    | none => none
    | some (fs, rest2) => some (fs, bs.length - rest2.length)

/-- Legality of one field: payload bytes fit in a byte, the payload length
fits the 4-byte length field, and a BIGINT value fits 64 signed bits. -/
def fieldWF : amp_field → Bool
  | .blob p => p.all (fun b => decide (b < 256)) && decide (p.length < 4294967296)
  | .str p => p.all (fun b => decide (b < 256)) && decide (p.length < 4294967296)
  | .bigint v => decide (-9223372036854775808 ≤ v ∧ v < 9223372036854775808)
  | .json p => p.all (fun b => decide (b < 256)) && decide (p.length < 4294967296)

/-- Well-formed message: at most 15 legal fields. -/
def ampWF (m : List amp_field) : Bool :=
  decide (m.length ≤ 15) && m.all fieldWF

/-! ## Subscription table and dispatch (src/src/axon.c). -/

/-- One subscription node: pattern string, callback pointer (none models a
NULL function pointer; callbacks are abstract identifiers) and user data. -/
structure Subscription where
  topic : String
  fct : Option Nat
  user : Nat
deriving DecidableEq

/-- Axon instance roles (axon_enum_e). -/
inductive axon_enum : Type
  | pub | sub | push | pull | req | rep
deriving DecidableEq

/-- The endpoint state touched by the subscription API: role, subscription
list and the requester message counter. -/
structure AxonState where
  type : axon_enum
  subs : List Subscription
  msg_id : Nat
deriving DecidableEq

/-- Translation of the subscription walk of axon_subscribe: update the first
node carrying the topic in place, else append a fresh node at the end. -/
def subscribeList (t : String) (f : Option Nat) (u : Nat) : List Subscription → List Subscription
  | [] => [⟨t, f, u⟩]
  | s :: rest =>
    if s.topic = t then ⟨s.topic, f, u⟩ :: rest
    else s :: subscribeList t f u rest

/-- Translation of axon_subscribe (src/src/axon.c, axon_subscribe): the role
is checked first and the table is only touched for SUB and PULL endpoints.
Allocation failure is not modelled. -/
def axon_subscribe (a : AxonState) (t : String) (f : Option Nat) (u : Nat) : Int × AxonState :=
  if a.type ≠ .sub ∧ a.type ≠ .pull then (-1, a)
  else (0, { a with subs := subscribeList t f u a.subs })

/-- Translation of the dispatch loop of axon_message_cb for SUB and PULL:
each subscription node is visited once in list order; its callback fires when
the function pointer is set, the pattern compiles (rv) and the compiled
regex matches the topic bytes (rm). The returned list holds the positions of
the invoked subscriptions in invocation order. -/
def subDispatchFrom (rv : String → Bool) (rm : String → List Nat → Bool) (t : List Nat) :
    Nat → List Subscription → List Nat
  | _, [] => []
  | i, s :: rest =>
    if s.fct.isSome && rv s.topic && rm s.topic t then
      i :: subDispatchFrom rv rm t (i + 1) rest
    else
      subDispatchFrom rv rm t (i + 1) rest

/-- Dispatch starting at the head of the subscription list. -/
def subDispatch (rv : String → Bool) (rm : String → List Nat → Bool) (t : List Nat)
    (subs : List Subscription) : List Nat :=
  subDispatchFrom rv rm t 0 subs

/-- Observable callback invocations of the SUB and PULL receive path. -/
inductive SubEvent : Type
  | onMessage (msg : List amp_field)
  | subCb (idx : Nat) (topic : List Nat) (msg : List amp_field)
deriving DecidableEq

/-- Translation of the SUB and PULL branch of axon_message_cb: the generic
message callback (when registered) receives the whole decoded message first;
then, only when the subscription list is non-empty and the first field is a
STRING, the topic field is detached and every matching subscription callback
receives the topic bytes and the remaining fields. -/
def subPullEvents (hasOnMsg : Bool) (rv : String → Bool) (rm : String → List Nat → Bool)
    (subs : List Subscription) (msg : List amp_field) : List SubEvent :=
  (if hasOnMsg then [SubEvent.onMessage msg] else []) ++
    (match msg with
     | amp_field.str d :: rest =>
       if subs.isEmpty then []
       else (subDispatch rv rm d subs).map (fun i => SubEvent.subCb i d rest)
     | _ => [])

/-- Message left after the SUB and PULL branch: the leading field is removed
exactly when the subscription list is non-empty and that field is a STRING. -/
def subPullFinalMsg (subs : List Subscription) (msg : List amp_field) : List amp_field :=
  match msg with
  | amp_field.str _ :: rest => if subs.isEmpty then msg else rest
  | _ => msg

/-- Translation of the REP branch of axon_message_cb: the trailing id field
is detached, the user callback runs on the remaining fields, and when it
returns a reply the id field is pushed back onto the reply which is encoded
and unicast on the socket the request arrived on. The result is the encoded
buffer and destination socket, or none when nothing is sent. -/
def repHandle (cb : List amp_field → Option (List amp_field)) (msg : List amp_field)
    (socket : Nat) : Option (List Nat × Nat) :=
  match msg.getLast? with
  | none => none
  | some idf =>
    match cb msg.dropLast with
    | none => none
    | some rep => (amp_encode (rep ++ [idf])).map (fun b => (b, socket))

/-! ## Dialer registry and socket selection (src/src/sock.c). -/

/-- One reader worker as registered by sock_connect: the dialed hostname and
port, plus the current TCP liveness of its socket (which the registry check
never examines). -/
structure ReaderWorker where
  hostname : String
  port : Nat
  connected : Bool
deriving DecidableEq

/-- Translation of the reader-list walk of sock_is_connected. -/
def sock_is_connected : List ReaderWorker → String → Nat → Bool
  | [], _, _ => false
  | r :: rest, h, p =>
    if r.hostname = h ∧ r.port = p then true else sock_is_connected rest h p

/-- Translation of the round-robin scan of sock_thread_sender: index runs
from 0 to FD_SETSIZE - 1 (1024 on the target platform), each live descriptor
at position (index + cursor + 1) mod 1024 overwrites the previous choice, and
there is no early exit, so the final value is the last live descriptor in the
scan order. The argument counts how many loop iterations have run. -/
def pickLoop (fds : Nat → Bool) (cursor : Nat) : Nat → Int
  | 0 => -1
  | n + 1 =>
    let prev := pickLoop fds cursor n
    let tmp := (n + cursor + 1) % 1024
    if fds tmp then Int.ofNat tmp else prev

/-- Socket chosen by one round-robin scan of sock_thread_sender. -/
def pickRoundRobin (fds : Nat → Bool) (cursor : Nat) : Int :=
  pickLoop fds cursor 1024

/-- Modelled from the spec: helper walking positions cursor + 1, cursor + 2,
and so on, returning the first live descriptor found. -/
def firstLiveAfterAux (fds : Nat → Bool) : Nat → Nat → Option Nat
  | 0, _ => none
  | fuel + 1, pos =>
    if fds (pos % 1024) then some (pos % 1024) else firstLiveAfterAux fds fuel (pos + 1)

/-- Modelled from the spec: pickRoundRobin returns the first live socket
strictly after the cursor, in wrap-around order over the connection set. -/
def firstLiveAfter (fds : Nat → Bool) (cursor : Nat) : Option Nat :=
  firstLiveAfterAux fds 1024 (cursor + 1)

/-- Translation of the no-peer back-off loop of sock_thread_sender, run when
no live client descriptor ever appears: each iteration multiplies the retry
value by 1.5 (C truncating int cast), caps it at 5000 ms bumping the loop
counter, gives up once the counter exceeds 3, and otherwise sleeps the retry
value. The result is the list of sleep durations in milliseconds; the first
argument is fuel bounding the number of iterations. -/
def senderSleeps : Nat → Nat → Nat → List Nat
  | 0, _, _ => []
  | fuel + 1, retry, loop =>
    let r := 3 * retry / 2
    if 5000 < r then
      if 3 < loop + 1 then []
      else 5000 :: senderSleeps fuel 5000 (loop + 1)
    else r :: senderSleeps fuel r loop

/-! ## Request timeout deadline (src/src/axon.c, axon_vsend). -/

/-- A POSIX timespec as produced by clock_gettime. -/
structure Timespec where
  sec : Nat
  nsec : Nat
deriving DecidableEq

/-- Translation of the deadline computation of axon_vsend: the current time
plus timeout / 1000 whole seconds (C integer division); tv_nsec and the
millisecond remainder of the timeout are not used. -/
def reqDeadline (now : Timespec) (timeoutMs : Nat) : Timespec :=
  ⟨now.sec + timeoutMs / 1000, now.nsec⟩

/-- Total nanoseconds of a timespec. -/
def timespecNs (t : Timespec) : Nat :=
  t.sec * 1000000000 + t.nsec

/-- Modelled from the spec: the deadline passed to the timed receive equals
the current time plus the caller-supplied timeout in milliseconds. -/
def specDeadlineNs (now : Timespec) (timeoutMs : Nat) : Nat :=
  timespecNs now + timeoutMs * 1000000

/-! ## Codec lemmas and the round-trip law (claim C5). -/

theorem natToLE_length (k n : Nat) : (natToLE k n).length = k := by
  induction k generalizing n with
  | zero => rfl
  | succ k ih => simp [natToLE, ih]

theorem leToNat_natToLE (k n : Nat) : leToNat (natToLE k n) = n % 256 ^ k := by
  induction k generalizing n with
  | zero => simp [natToLE, leToNat, Nat.mod_one]
  | succ k ih =>
    have h : (256 : Nat) ^ (k + 1) = 256 * 256 ^ k := by ring
    rw [natToLE, leToNat, ih, h, Nat.mod_mul]

theorem int64ToLE_length (v : Int) : (int64ToLE v).length = 8 :=
  natToLE_length 8 _

theorem int64_roundtrip (v : Int) (h1 : -9223372036854775808 ≤ v)
    (h2 : v < 9223372036854775808) : leToInt64 (int64ToLE v) = v := by
  unfold leToInt64 int64ToLE
  have hB : (256 : Nat) ^ 8 = 18446744073709551616 := by norm_num
  rw [leToNat_natToLE, hB]
  split
  · omega
  · omega

theorem fieldTag_lt (f : amp_field) : fieldTag f < 4 := by
  cases f <;> simp [fieldTag]

theorem mkField_encode (f : amp_field) (h : fieldWF f = true) :
    mkField (fieldTag f) (fieldPayload f) = some f := by
  cases f with
  | blob p => rfl
  | str p => rfl
  | json p => rfl
  | bigint v =>
    simp only [fieldWF, decide_eq_true_eq] at h
    simp only [fieldTag, fieldPayload, mkField, int64ToLE_length, if_pos]
    rw [int64_roundtrip v h.1 h.2]

theorem decodeBody_take (tag : Nat) (p rest : List Nat) (f : amp_field)
    (hmk : mkField tag p = some f) :
    decodeBody tag p.length (p ++ rest) = some (f, rest) := by
  unfold decodeBody
  rw [if_pos (by simp), List.take_left, List.drop_left, hmk]

theorem beToNat4_natToBE4 (n : Nat) (h : n < 4294967296) :
    (natToBE4 n).reverse = natToLE 4 n ∧
      beToNat4 (n / 16777216 % 256) (n / 65536 % 256) (n / 256 % 256) (n % 256) = n := by
  constructor
  · simp [natToBE4]
  · unfold beToNat4
    omega

theorem decode_encode_field (f : amp_field) (rest : List Nat) (hwf : fieldWF f = true) :
    decodeField (encodeField f ++ rest) = some (f, rest) := by
  have htag := fieldTag_lt f
  have hmk := mkField_encode f hwf
  have hmod : fieldTag f % 128 = fieldTag f := Nat.mod_eq_of_lt (by omega)
  unfold encodeField
  by_cases hp : (fieldPayload f).length ≤ 255
  · rw [if_pos hp]
    simp only [List.cons_append, decodeField]
    rw [if_neg (by omega), hmod]
    exact decodeBody_take _ _ rest f hmk
  · rw [if_neg hp]
    have hlen : (fieldPayload f).length < 4294967296 := by
      cases f with
      | blob p => simp only [fieldWF, Bool.and_eq_true, decide_eq_true_eq] at hwf; exact hwf.2
      | str p => simp only [fieldWF, Bool.and_eq_true, decide_eq_true_eq] at hwf; exact hwf.2
      | json p => simp only [fieldWF, Bool.and_eq_true, decide_eq_true_eq] at hwf; exact hwf.2
      | bigint v => simp [fieldPayload, int64ToLE_length]
    simp only [natToBE4, natToLE, List.reverse_cons, List.reverse_nil, List.nil_append,
      List.cons_append, List.append_assoc, List.nil_append, decodeField]
    rw [if_pos (by omega)]
    have hb : beToNat4 ((fieldPayload f).length / 256 / 256 / 256 % 256)
        ((fieldPayload f).length / 256 / 256 % 256) ((fieldPayload f).length / 256 % 256)
        ((fieldPayload f).length % 256) = (fieldPayload f).length := by
      unfold beToNat4
      omega
    have hmod2 : (128 + fieldTag f) % 128 = fieldTag f := by omega
    rw [hmod2, hb]
    exact decodeBody_take _ _ rest f hmk

theorem decodeFields_encode (fs : List amp_field) (rest : List Nat)
    (h : ∀ f ∈ fs, fieldWF f = true) :
    decodeFields fs.length (fs.flatMap encodeField ++ rest) = some (fs, rest) := by
  induction fs with
  | nil => simp [decodeFields]
  | cons f fs ih =>
    simp only [List.flatMap_cons, List.length_cons, List.append_assoc, decodeFields,
      decode_encode_field f _ (h f (by simp)), ih (fun g hg => h g (by simp [hg]))]

/-- C5: for every well-formed AMP message of at most 15 legal fields, decoding
the encoding yields the same field list and reports a consumed byte count
equal to the length of the encoding. -/
theorem amp_roundtrip (m : List amp_field) (h : ampWF m = true) :
    ∃ b, amp_encode m = some b ∧ amp_decode b = some (m, b.length) := by
  simp only [ampWF, Bool.and_eq_true, decide_eq_true_eq, List.all_eq_true] at h
  refine ⟨(16 + m.length) :: m.flatMap encodeField, ?_, ?_⟩
  · simp [amp_encode, h.1]
  · have hm : (16 + m.length) % 16 = m.length := by omega
    have hd := decodeFields_encode m [] (fun f hf => h.2 f hf)
    rw [List.append_nil] at hd
    simp only [amp_decode, hm, hd]
    simp

/-- Witness for C5 at a concrete four-field message exercising a short
string, a negative BIGINT, a 256-byte blob (4-byte length path) and a JSON
field. -/
theorem amp_roundtrip_witness :
    ampWF [amp_field.str [116, 111, 112], amp_field.bigint (-5),
        amp_field.blob (List.replicate 256 7), amp_field.json [123, 125]] = true ∧
      ∃ b, amp_encode [amp_field.str [116, 111, 112], amp_field.bigint (-5),
            amp_field.blob (List.replicate 256 7), amp_field.json [123, 125]] = some b ∧
          amp_decode b = some ([amp_field.str [116, 111, 112], amp_field.bigint (-5),
            amp_field.blob (List.replicate 256 7), amp_field.json [123, 125]], b.length) :=
  ⟨by decide, amp_roundtrip _ (by decide)⟩

/-! ## Round-robin socket selection (claim C1). -/

/-- C1: with live descriptors 1 and 2 and the round-robin cursor at 0, the
scan of sock_thread_sender (which has no early exit, so the last live
descriptor in scan order wins) selects descriptor 2, while the specified
rule of picking the first live socket strictly after the cursor selects
descriptor 1. -/
theorem round_robin_pick_eval :
    pickRoundRobin (fun x => x == 1 || x == 2) 0 = 2 ∧
      firstLiveAfter (fun x => x == 1 || x == 2) 0 = some 1 := by
  constructor
  · decide
  · decide

/-! ## Request timeout deadline (claim C2). -/

/-- C2: for a caller-supplied timeout of 200 ms, axon_vsend leaves the
mq_timedreceive deadline equal to the current time (it only adds
timeout / 1000 = 0 whole seconds and never touches tv_nsec), whereas the
specified deadline is the current time plus 200 ms. -/
theorem req_deadline_eval :
    reqDeadline ⟨1000, 5⟩ 200 = ⟨1000, 5⟩ ∧
      timespecNs (reqDeadline ⟨1000, 5⟩ 200) ≠ specDeadlineNs ⟨1000, 5⟩ 200 := by
  constructor
  · rfl
  · decide

/-! ## Sender back-off when no peer is live (claim C3). -/

/-- C3 counterexample: the first sleep of the no-peer back-off of
sock_thread_sender is 150 ms, not the 100 ms stated by the claim, because
the retry value is multiplied by 1.5 before the first sleep. -/
theorem sender_backoff_first_sleep :
    (senderSleeps 13 100 0).head? ≠ some 100 ∧ (senderSleeps 13 100 0).head? = some 150 := by
  constructor
  · decide
  · decide

/-- C3 amended: starting from the 100 ms seed, the successive sleep
durations are 150 ms then each subsequent one the integer floor of 1.5
times the previous, capped at 5000 ms; the sender sleeps exactly three
times at the cap and gives up on the fourth cap-hit, whatever fuel the
loop is given beyond that point. -/
theorem sender_backoff_trace (k : Nat) :
    senderSleeps (13 + k) 100 0 =
      [150, 225, 337, 505, 757, 1135, 1702, 2553, 3829, 5000, 5000, 5000] := by
  rw [Nat.add_comm]
  simp [senderSleeps]

/-! ## Subscription table update (claims C6 and C7). -/

theorem subscribeList_not_mem (t : String) (f : Option Nat) (u : Nat)
    (subs : List Subscription) (h : t ∉ subs.map Subscription.topic) :
    subscribeList t f u subs = subs ++ [⟨t, f, u⟩] := by
  induction subs with
  | nil => rfl
  | cons s rest ih =>
    simp only [List.map_cons, List.mem_cons] at h
    push_neg at h
    simp only [subscribeList]
    rw [if_neg (fun e => h.1 e.symm), ih h.2]
    rfl

theorem subscribeList_mem (t : String) (f : Option Nat) (u : Nat)
    (subs : List Subscription) (hnd : (subs.map Subscription.topic).Nodup)
    (h : t ∈ subs.map Subscription.topic) :
    subscribeList t f u subs =
      subs.map (fun s => if s.topic = t then ⟨t, f, u⟩ else s) := by
  induction subs with
  | nil => simp at h
  | cons s rest ih =>
    simp only [List.map_cons, List.nodup_cons] at hnd
    by_cases hs : s.topic = t
    · have hst : ∀ s2 ∈ rest, s2.topic ≠ t := by
        intro s2 hs2 e
        apply hnd.1
        rw [hs, ← e]
        exact List.mem_map_of_mem Subscription.topic hs2
      have hrest : rest.map (fun s2 => if s2.topic = t then (⟨t, f, u⟩ : Subscription) else s2)
          = rest := by
        conv_rhs => rw [← List.map_id rest]
        apply List.map_congr_left
        intro s2 hs2
        simp [hst s2 hs2]
      rw [subscribeList, if_pos hs, List.map_cons, if_pos hs, hrest, hs]
    · have hr : t ∈ rest.map Subscription.topic := by
        simp only [List.map_cons, List.mem_cons] at h
        rcases h with h | h
        · exact absurd h.symm hs
        · exact h
      simp only [subscribeList, if_neg hs, List.map_cons, if_neg hs, ih hnd.2 hr]

/-- C6: on a SUB or PULL endpoint, subscribing with a pattern already present
replaces that entry in place (same length, same order, same patterns) and
subscribing with a fresh pattern appends a new entry at the end. -/
theorem axon_subscribe_spec (a : AxonState) (t : String) (f : Option Nat) (u : Nat)
    (hrole : a.type = axon_enum.sub ∨ a.type = axon_enum.pull)
    (hnd : (a.subs.map Subscription.topic).Nodup) :
    (axon_subscribe a t f u).1 = 0 ∧
      (axon_subscribe a t f u).2.type = a.type ∧
      (axon_subscribe a t f u).2.subs =
        (if t ∈ a.subs.map Subscription.topic
         then a.subs.map (fun s => if s.topic = t then ⟨t, f, u⟩ else s)
         else a.subs ++ [⟨t, f, u⟩]) := by
  have hc : ¬(a.type ≠ axon_enum.sub ∧ a.type ≠ axon_enum.pull) := by
    rcases hrole with h | h <;> simp [h]
  unfold axon_subscribe
  rw [if_neg hc]
  refine ⟨rfl, rfl, ?_⟩
  by_cases hm : t ∈ a.subs.map Subscription.topic
  · rw [if_pos hm, subscribeList_mem t f u a.subs hnd hm]
  · rw [if_neg hm, subscribeList_not_mem t f u a.subs hm]

/-- Witness for C6 on a two-entry table: replacing the existing pattern
preserves order and appending a fresh one goes to the tail. -/
theorem axon_subscribe_spec_witness :
    ((⟨axon_enum.sub, [⟨"topic1", some 1, 4⟩, ⟨"topic2", some 2, 5⟩], 0⟩ : AxonState).type
        = axon_enum.sub ∨
      (⟨axon_enum.sub, [⟨"topic1", some 1, 4⟩, ⟨"topic2", some 2, 5⟩], 0⟩ : AxonState).type
        = axon_enum.pull) ∧
      (([⟨"topic1", some 1, 4⟩, ⟨"topic2", some 2, 5⟩] : List Subscription).map
        Subscription.topic).Nodup ∧
      ((axon_subscribe ⟨axon_enum.sub, [⟨"topic1", some 1, 4⟩, ⟨"topic2", some 2, 5⟩], 0⟩
          "topic1" (some 9) 6).1 = 0 ∧
        (axon_subscribe ⟨axon_enum.sub, [⟨"topic1", some 1, 4⟩, ⟨"topic2", some 2, 5⟩], 0⟩
          "topic1" (some 9) 6).2.type = axon_enum.sub ∧
        (axon_subscribe ⟨axon_enum.sub, [⟨"topic1", some 1, 4⟩, ⟨"topic2", some 2, 5⟩], 0⟩
          "topic1" (some 9) 6).2.subs =
          (if "topic1" ∈ ([⟨"topic1", some 1, 4⟩, ⟨"topic2", some 2, 5⟩] :
              List Subscription).map Subscription.topic
           then ([⟨"topic1", some 1, 4⟩, ⟨"topic2", some 2, 5⟩] :
              List Subscription).map
                (fun s => if s.topic = "topic1" then ⟨"topic1", some 9, 6⟩ else s)
           else [⟨"topic1", some 1, 4⟩, ⟨"topic2", some 2, 5⟩] ++ [⟨"topic1", some 9, 6⟩])) :=
  ⟨Or.inl rfl, by decide,
    axon_subscribe_spec ⟨axon_enum.sub, [⟨"topic1", some 1, 4⟩, ⟨"topic2", some 2, 5⟩], 0⟩
      "topic1" (some 9) 6 (Or.inl rfl) (by decide)⟩

/-- C7: axon_subscribe on an endpoint whose role is neither SUB nor PULL
returns failure and leaves the whole endpoint state untouched. -/
theorem axon_subscribe_wrong_role (a : AxonState) (t : String) (f : Option Nat) (u : Nat)
    (h1 : a.type ≠ axon_enum.sub) (h2 : a.type ≠ axon_enum.pull) :
    axon_subscribe a t f u = (-1, a) := by
  unfold axon_subscribe
  rw [if_pos ⟨h1, h2⟩]

/-- Witness for C7: subscribing on a PUB endpoint fails without touching it. -/
theorem axon_subscribe_wrong_role_witness :
    ((⟨axon_enum.pub, [], 0⟩ : AxonState).type ≠ axon_enum.sub) ∧
      ((⟨axon_enum.pub, [], 0⟩ : AxonState).type ≠ axon_enum.pull) ∧
      axon_subscribe ⟨axon_enum.pub, [], 0⟩ "topic1" (some 1) 2 =
        (-1, (⟨axon_enum.pub, [], 0⟩ : AxonState)) :=
  ⟨by decide, by decide,
    axon_subscribe_wrong_role ⟨axon_enum.pub, [], 0⟩ "topic1" (some 1) 2
      (by decide) (by decide)⟩

/-! ## Dialer registry check (claim C8). -/

/-- C8: sock_is_connected returns true exactly when a reader worker created
for that exact hostname string and port is registered, and its result never
depends on the TCP liveness of the workers. -/
theorem sock_is_connected_iff (rs : List ReaderWorker) (h : String) (p : Nat) :
    (sock_is_connected rs h p = true ↔ ∃ r ∈ rs, r.hostname = h ∧ r.port = p) ∧
      ∀ g : ReaderWorker → Bool,
        sock_is_connected (rs.map fun r => ⟨r.hostname, r.port, g r⟩) h p =
          sock_is_connected rs h p := by
  constructor
  · induction rs with
    | nil => simp [sock_is_connected]
    | cons r rest ih =>
      rw [sock_is_connected]
      by_cases hr : r.hostname = h ∧ r.port = p
      · simp [hr]
      · rw [if_neg hr, ih]
        constructor
        · rintro ⟨x, hx, hxx⟩
          exact ⟨x, List.mem_cons_of_mem r hx, hxx⟩
        · rintro ⟨x, hx, hxx⟩
          rcases List.mem_cons.mp hx with hx | hx
          · exact absurd (hx ▸ hxx) hr
          · exact ⟨x, hx, hxx⟩
  · intro g
    induction rs with
    | nil => rfl
    | cons r rest ih =>
      simp only [List.map_cons, sock_is_connected, ih]

/-! ## Subscription dispatch (claim C4). -/

theorem subDispatchFrom_mem_ge (rv : String → Bool) (rm : String → List Nat → Bool)
    (t : List Nat) : ∀ (subs : List Subscription) (base j : Nat),
    j ∈ subDispatchFrom rv rm t base subs → base ≤ j := by
  intro subs
  induction subs with
  | nil =>
    intro base j hj
    simp [subDispatchFrom] at hj
  | cons s rest ih =>
    intro base j hj
    rw [subDispatchFrom] at hj
    by_cases hc : (s.fct.isSome && rv s.topic && rm s.topic t) = true
    · rw [if_pos hc] at hj
      rcases List.mem_cons.mp hj with rfl | hj
      · exact Nat.le_refl j
      · exact Nat.le_trans (Nat.le_succ base) (ih (base + 1) j hj)
    · rw [if_neg hc] at hj
      exact Nat.le_trans (Nat.le_succ base) (ih (base + 1) j hj)

theorem count_subDispatchFrom (rv : String → Bool) (rm : String → List Nat → Bool)
    (t : List Nat) : ∀ (subs : List Subscription) (base k : Nat) (s : Subscription),
    subs[k]? = some s →
      (subDispatchFrom rv rm t base subs).count (base + k) =
        if s.fct.isSome && rv s.topic && rm s.topic t then 1 else 0 := by
  intro subs
  induction subs with
  | nil =>
    intro base k s hs
    simp at hs
  | cons hd tl ih =>
    intro base k s hs
    cases k with
    | zero =>
      rw [List.getElem?_cons_zero] at hs
      obtain rfl : hd = s := by injection hs
      have h0 : base ∉ subDispatchFrom rv rm t (base + 1) tl := by
        intro hmem
        have := subDispatchFrom_mem_ge rv rm t tl (base + 1) base hmem
        omega
      rw [Nat.add_zero, subDispatchFrom]
      by_cases hc : (hd.fct.isSome && rv hd.topic && rm hd.topic t) = true
      · rw [if_pos hc, if_pos hc, List.count_cons_self,
          List.count_eq_zero_of_not_mem h0]
      · rw [if_neg hc, if_neg hc]
        exact List.count_eq_zero_of_not_mem h0
    | succ k =>
      rw [List.getElem?_cons_succ] at hs
      have hadd : base + (k + 1) = base + 1 + k := by omega
      rw [subDispatchFrom, hadd]
      by_cases hc : (hd.fct.isSome && rv hd.topic && rm hd.topic t) = true
      · rw [if_pos hc, List.count_cons_of_ne (by omega : base + 1 + k ≠ base)]
        exact ih (base + 1) k s hs
      · rw [if_neg hc]
        exact ih (base + 1) k s hs

/-- C4: when the message head is a STRING topic, a subscription whose
callback pointer is set and whose pattern compiles is invoked exactly once
when the compiled regex matches the topic and never otherwise, both in the
dispatch loop itself and among the events of the whole receive path. -/
theorem sub_dispatch_once (rv : String → Bool) (rm : String → List Nat → Bool)
    (subs : List Subscription) (d : List Nat) (rest : List amp_field) (i : Nat)
    (s : Subscription) (hs : subs[i]? = some s) (hf : s.fct.isSome = true)
    (hv : rv s.topic = true) (hne : subs ≠ []) :
    (subDispatch rv rm d subs).count i = (if rm s.topic d then 1 else 0) ∧
      (subPullEvents true rv rm subs (amp_field.str d :: rest)).count
          (SubEvent.subCb i d rest) = (if rm s.topic d then 1 else 0) := by
  have h1 : (subDispatch rv rm d subs).count i = if rm s.topic d then 1 else 0 := by
    have hc := count_subDispatchFrom rv rm d subs 0 i s hs
    rw [Nat.zero_add] at hc
    rw [subDispatch, hc, hf, hv]
    simp
  refine ⟨h1, ?_⟩
  have hie : subs.isEmpty = false := by
    cases subs with
    | nil => exact absurd rfl hne
    | cons a l => rfl
  have hinj : Function.Injective (fun j => SubEvent.subCb j d rest) := by
    intro a b hab
    simpa using hab
  simp only [subPullEvents, hie, if_true, Bool.false_eq_true, if_false]
  rw [List.singleton_append,
    List.count_cons_of_ne (by simp : SubEvent.subCb i d rest ≠ SubEvent.onMessage
      (amp_field.str d :: rest)),
    List.count_map_of_injective _ _ hinj i]
  exact h1

/-- Witness for C4: a single always-matching subscription fires exactly once
for a concrete topic. -/
theorem sub_dispatch_once_witness :
    (([⟨"top", some 5, 0⟩] : List Subscription)[0]? = some ⟨"top", some 5, 0⟩) ∧
      (Subscription.fct ⟨"top", some 5, 0⟩).isSome = true ∧
      (fun (_ : String) => true) (Subscription.topic ⟨"top", some 5, 0⟩) = true ∧
      ([⟨"top", some 5, 0⟩] : List Subscription) ≠ [] ∧
      (subDispatch (fun _ => true) (fun _ _ => true) [116] [⟨"top", some 5, 0⟩]).count 0 = 1 ∧
      (subPullEvents true (fun _ => true) (fun _ _ => true) [⟨"top", some 5, 0⟩]
          (amp_field.str [116] :: [])).count (SubEvent.subCb 0 [116] []) = 1 := by
  refine ⟨by decide, by decide, rfl, by decide, ?_, ?_⟩
  · have h := (sub_dispatch_once (fun _ => true) (fun _ _ => true) [⟨"top", some 5, 0⟩]
      [116] [] 0 ⟨"top", some 5, 0⟩ (by decide) (by decide) rfl (by decide)).1
    simpa using h
  · have h := (sub_dispatch_once (fun _ => true) (fun _ _ => true) [⟨"top", some 5, 0⟩]
      [116] [] 0 ⟨"top", some 5, 0⟩ (by decide) (by decide) rfl (by decide)).2
    simpa using h

/-! ## REP reply path (claim C9). -/

/-- C9: on a received request, when the user callback returns no reply the
REP path sends nothing; when it returns a reply, the saved id field is
appended to the reply and the encoded result is unicast on the very socket
the request arrived on. -/
theorem rep_reply (cb : List amp_field → Option (List amp_field)) (msg : List amp_field)
    (socket : Nat) (idf : amp_field) (hlast : msg.getLast? = some idf) :
    (cb msg.dropLast = none → repHandle cb msg socket = none) ∧
      ∀ rep buf, cb msg.dropLast = some rep →
        amp_encode (rep ++ [idf]) = some buf →
        repHandle cb msg socket = some (buf, socket) := by
  constructor
  · intro hnone
    simp [repHandle, hlast, hnone]
  · intro rep buf hrep henc
    simp [repHandle, hlast, hrep, henc]

/-- Witness for C9: a one-field reply to a two-field request is re-tagged
with the id field and sent back on socket 7. -/
theorem rep_reply_witness :
    (([amp_field.json [49], amp_field.str [52]] : List amp_field).getLast?
        = some (amp_field.str [52])) ∧
      repHandle (fun _ => some [amp_field.bigint 1])
          [amp_field.json [49], amp_field.str [52]] 7 =
        some ([18, 2, 8, 1, 0, 0, 0, 0, 0, 0, 0, 1, 1, 52], 7) :=
  ⟨by decide,
    (rep_reply (fun _ => some [amp_field.bigint 1])
        [amp_field.json [49], amp_field.str [52]] 7 (amp_field.str [52]) (by decide)).2
      [amp_field.bigint 1] [18, 2, 8, 1, 0, 0, 0, 0, 0, 0, 0, 1, 1, 52] rfl (by decide)⟩

/-! ## SUB and PULL receive ordering (claim C10). -/

/-- C10: the generic message callback is always the first event of the SUB
and PULL receive path and observes the whole decoded message, topic field
included; the topic field is removed from the message only when the
subscription table is non-empty and the leading field is a STRING. -/
theorem sub_onmessage_first (rv : String → Bool) (rm : String → List Nat → Bool)
    (subs : List Subscription) (msg : List amp_field) :
    (subPullEvents true rv rm subs msg).head? = some (SubEvent.onMessage msg) ∧
      (subPullFinalMsg subs msg = msg ∨
        (subs ≠ [] ∧ ∃ d rest, msg = amp_field.str d :: rest ∧
          subPullFinalMsg subs msg = rest)) := by
  constructor
  · unfold subPullEvents
    simp
  · cases msg with
    | nil => exact Or.inl rfl
    | cons f r =>
      cases f with
      | blob p => exact Or.inl rfl
      | bigint v => exact Or.inl rfl
      | json p => exact Or.inl rfl
      | str d =>
        by_cases hs : subs.isEmpty = true
        · refine Or.inl ?_
          simp only [subPullFinalMsg, if_pos hs]
        · refine Or.inr ⟨?_, d, r, rfl, ?_⟩
          · intro e
            rw [e] at hs
            exact hs rfl
          · simp only [subPullFinalMsg, if_neg hs]

end CAxon
